import Mathlib

/-
Shallow embedding of the telefon employee-directory service (src/main.go):
the session manager (getSession / setSession / clearSession), the access
policy (hasAccess), the directory read operations (getEmployees,
searchEmployees, the by-id lookup) and the HTTP handlers built on them
(indexHandler, searchHandler, apiEmployeesHandler, getEmployeeHandler).
Strings are modelled as Lean strings (sequences of Unicode scalar values);
the relational store is modelled as an optional list of rows, none standing
for an unreachable store or a failing query.
-/

/-- Hex digit character for a value below 16, lowercase, as produced by Go's
encoding/json escaper. -/
def hexDigit (m : Nat) : Char :=
  if m < 10 then Char.ofNat (48 + m) else Char.ofNat (87 + m)

/-- Value of a hex digit character, as accepted when resolving a \u escape in
a JSON string literal. -/
def parseHexDigit (c : Char) : Option Nat :=
  if 48 ≤ c.toNat ∧ c.toNat ≤ 57 then some (c.toNat - 48)
  else if 97 ≤ c.toNat ∧ c.toNat ≤ 102 then some (c.toNat - 87)
  else if 65 ≤ c.toNat ∧ c.toNat ≤ 70 then some (c.toNat - 55)
  else none

/-- Escape of one character inside a JSON string literal, mirroring Go's
encoding/json encoder (the HTML-escaping default used by json.Marshal):
quote, backslash, newline, carriage return and tab get two-character escapes;
other control characters, the HTML-sensitive characters and the line/paragraph
separators get \u escapes; everything else is emitted verbatim. -/
def escChar (c : Char) : List Char :=
  if c = '"' then ['\\', '"']
  else if c = '\\' then ['\\', '\\']
  else if c = '\n' then ['\\', 'n']
  else if c = '\r' then ['\\', 'r']
  else if c = '\t' then ['\\', 't']
  else if c = '<' then ['\\', 'u', '0', '0', '3', 'c']
  else if c = '>' then ['\\', 'u', '0', '0', '3', 'e']
  else if c = '&' then ['\\', 'u', '0', '0', '2', '6']
  else if c.toNat < 32 then
    ['\\', 'u', '0', '0', hexDigit (c.toNat / 16), hexDigit (c.toNat % 16)]
  else if c.toNat = 8232 then ['\\', 'u', '2', '0', '2', '8']
  else if c.toNat = 8233 then ['\\', 'u', '2', '0', '2', '9']
  else [c]

/-- Escaped body of a JSON string literal. -/
def escBody : List Char → List Char
  | [] => []
  | c :: s => escChar c ++ escBody s

/-- JSON string literal for one string, given as a character list. -/
def encStringJson (s : List Char) : List Char :=
  '"' :: (escBody s ++ ['"'])

/-- Comma-separated item list of a JSON array of strings. -/
def encItems : List (List Char) → List Char
  | [] => []
  | [s] => encStringJson s
  | s :: t :: rest => encStringJson s ++ ',' :: encItems (t :: rest)

/-- JSON encoding of a list of strings, mirroring Go's json.Marshal on a
non-nil []string value: no whitespace, HTML-escaping encoder. -/
def jsonEncodeStrings (l : List (List Char)) : List Char :=
  '[' :: (encItems l ++ [']'])

/-- Unescape of a two-character JSON escape: the character after the
backslash determines the decoded character. -/
def unescChar (e : Char) : Option Char :=
  if e = '"' then some '"'
  else if e = '\\' then some '\\'
  else if e = '/' then some '/'
  else if e = 'b' then some (Char.ofNat 8)
  else if e = 'f' then some (Char.ofNat 12)
  else if e = 'n' then some '\n'
  else if e = 'r' then some '\r'
  else if e = 't' then some '\t'
  else none

/-- Unicode replacement character, written by Go's unquoter at invalid
surrogate escape sequences. -/
def fffdChar : Char := Char.ofNat 65533

/-- Body of a JSON string literal: consumes input up to the closing quote,
resolving escapes, and returns the decoded string together with the
remaining input, combining what Go's scanner and unquoter do to a string:
an unescaped control character or an unknown escape is a syntax error; a
high-surrogate \u escape combines with an immediately following
low-surrogate escape into one code point, and any other surrogate escape
decodes to the replacement character U+FFFD with only the first escape
consumed, exactly as utf16.DecodeRune falls back in Go's unquoter. Every
step consumes at least one input character, so fuel one beyond the input
length never runs out. -/
def parseStringBody : Nat → List Char → List Char → Option (List Char × List Char)
  | 0, _, _ => none
  | _ + 1, [], _ => none
  | fuel + 1, c :: rest, acc =>
    if c = '"' then some (acc.reverse, rest)
    else if c = '\\' then
      match rest with
      | [] => none
      | e :: rest2 =>
        if e = 'u' then
          match rest2 with
          | h1 :: h2 :: h3 :: h4 :: rest3 =>
            match parseHexDigit h1, parseHexDigit h2, parseHexDigit h3, parseHexDigit h4 with
            | some d1, some d2, some d3, some d4 =>
              let n := ((d1 * 16 + d2) * 16 + d3) * 16 + d4
              if hs : 55296 ≤ n ∧ n < 57344 then
                match rest3 with
                | '\\' :: 'u' :: k1 :: k2 :: k3 :: k4 :: rest4 =>
                  match parseHexDigit k1, parseHexDigit k2, parseHexDigit k3, parseHexDigit k4 with
                  | some g1, some g2, some g3, some g4 =>
                    let m := ((g1 * 16 + g2) * 16 + g3) * 16 + g4
                    if hp : n < 56320 ∧ 56320 ≤ m ∧ m < 57344 then
                      parseStringBody fuel rest4
                        (Char.ofNatAux (65536 + (n - 55296) * 1024 + (m - 56320))
                          (Or.inr (by omega)) :: acc)
                    else parseStringBody fuel rest3 (fffdChar :: acc)
                  | _, _, _, _ => parseStringBody fuel rest3 (fffdChar :: acc)
                | _ => parseStringBody fuel rest3 (fffdChar :: acc)
              else if hv : Nat.isValidChar n then
                parseStringBody fuel rest3 (Char.ofNatAux n hv :: acc)
              else none
            | _, _, _, _ => none
          | _ => none
        else
          match unescChar e with
          | some ch => parseStringBody fuel rest2 (ch :: acc)
          | none => none
    else if c.toNat < 32 then none
    else parseStringBody fuel rest (c :: acc)

/-- JSON whitespace (space, tab, newline, carriage return) dropped from the
front of the input. -/
def skipWs : List Char → List Char
  | [] => []
  | c :: r => if c = ' ' ∨ c = '\t' ∨ c = '\n' ∨ c = '\r' then skipWs r else c :: r

/-- Decimal digits dropped from the front of the input. -/
def skipDigits : List Char → List Char
  | [] => []
  | c :: r => if 48 ≤ c.toNat ∧ c.toNat ≤ 57 then skipDigits r else c :: r

/-- At least one decimal digit, then any further digits. -/
def skipDigits1 : List Char → Option (List Char)
  | c :: u => if 48 ≤ c.toNat ∧ c.toNat ≤ 57 then some (skipDigits u) else none
  | [] => none

/-- Sign and digits of a JSON number exponent. -/
def skipExpDigits : List Char → Option (List Char)
  | '+' :: u => skipDigits1 u
  | '-' :: u => skipDigits1 u
  | u => skipDigits1 u

/-- Exponent part of a JSON number: e or E, an optional sign, then at least
one digit; an absent exponent is fine. -/
def skipExpPart : List Char → Option (List Char)
  | 'e' :: t => skipExpDigits t
  | 'E' :: t => skipExpDigits t
  | r => some r

/-- Fraction part of a JSON number: a dot must be followed by at least one
digit; an absent dot is fine. -/
def skipFracPart : List Char → Option (List Char)
  | '.' :: t => skipDigits1 t
  | r => some r

/-- Integer, fraction and exponent of a JSON number after the optional
minus: the integer part is a lone zero or starts with a nonzero digit. -/
def skipNumberBody : List Char → Option (List Char)
  | '0' :: t => (skipFracPart t).bind skipExpPart
  | c :: t =>
    if 49 ≤ c.toNat ∧ c.toNat ≤ 57 then (skipFracPart (skipDigits t)).bind skipExpPart
    else none
  | [] => none

/-- JSON number syntax: an optional minus followed by the number body. -/
def skipNumber : List Char → Option (List Char)
  | '-' :: t => skipNumberBody t
  | t => skipNumberBody t

mutual

/-- Syntactic skip of one JSON value, mirroring the validity scan of Go's
json.Unmarshal; the input must already start at the value, whitespace
skipped by the caller. The shared fuel bounds the mutual recursion: every
third step consumes an input character, so three times the input length is
ample and the fuel never runs out on any input the top-level decoder
passes. -/
def skipValue : Nat → List Char → Option (List Char)
  | 0, _ => none
  | fuel + 1, r =>
    match r with
    | '{' :: rest => skipObjectBody fuel rest
    | '[' :: rest => skipArrayBody fuel rest
    | '"' :: rest => (parseStringBody (rest.length + 1) rest []).map Prod.snd
    | 't' :: 'r' :: 'u' :: 'e' :: rest => some rest
    | 'f' :: 'a' :: 'l' :: 's' :: 'e' :: rest => some rest
    | 'n' :: 'u' :: 'l' :: 'l' :: rest => some rest
    | s => skipNumber s

/-- Remainder of a JSON array after its opening bracket: either the closing
bracket at once, or a comma-separated run of values. -/
def skipArrayBody : Nat → List Char → Option (List Char)
  | 0, _ => none
  | fuel + 1, r =>
    match skipWs r with
    | ']' :: rest => some rest
    | r1 => skipArrayRest fuel r1

/-- Comma-separated run of JSON array values up to the closing bracket; a
value must be present (no trailing comma). -/
def skipArrayRest : Nat → List Char → Option (List Char)
  | 0, _ => none
  | fuel + 1, r =>
    match skipValue fuel (skipWs r) with
    | none => none
    | some rest =>
      match skipWs rest with
      | ',' :: rest2 => skipArrayRest fuel rest2
      | ']' :: rest2 => some rest2
      | _ => none

/-- Remainder of a JSON object after its opening brace: either the closing
brace at once, or a comma-separated run of string keys with values. -/
def skipObjectBody : Nat → List Char → Option (List Char)
  | 0, _ => none
  | fuel + 1, r =>
    match skipWs r with
    | '}' :: rest => some rest
    | r1 => skipObjectRest fuel r1

/-- Comma-separated run of JSON object members up to the closing brace; a
string key, a colon and a value must be present (no trailing comma). -/
def skipObjectRest : Nat → List Char → Option (List Char)
  | 0, _ => none
  | fuel + 1, r =>
    match skipWs r with
    | '"' :: rest =>
      match parseStringBody (rest.length + 1) rest [] with
      | none => none
      | some (_, rest2) =>
        match skipWs rest2 with
        | ':' :: rest3 =>
          match skipValue fuel (skipWs rest3) with
          | none => none
          | some rest4 =>
            match skipWs rest4 with
            | ',' :: rest5 => skipObjectRest fuel rest5
            | '}' :: rest5 => some rest5
            | _ => none
        | _ => none
    | _ => none

end

/-- Decode of one array element into a string slot, mirroring
json.Unmarshal into a []string value: a JSON string element decodes to its
content, and any other syntactically valid element is skipped and leaves the
zero-valued string, exactly the save-the-type-error-and-continue behaviour
of Go's decoder (the saved error is discarded by the caller anyway). -/
def parseElem (fuel : Nat) (r : List Char) : Option (String × List Char) :=
  match r with
  | '"' :: rest => (parseStringBody (rest.length + 1) rest []).map (fun p => (String.mk p.1, p.2))
  | s => (skipValue fuel s).map (fun rest => ("", rest))

/-- Elements of a non-empty JSON array decoded into string slots, read after
the opening bracket. -/
def parseElems : Nat → List Char → Option (List String × List Char)
  | 0, _ => none
  | fuel + 1, r =>
    match parseElem fuel (skipWs r) with
    | none => none
    | some (v, rest) =>
      match skipWs rest with
      | ',' :: rest2 =>
        match parseElems fuel rest2 with
        | some (l, r2) => some (v :: l, r2)
        | none => none
      | ']' :: rest2 => some ([v], rest2)
      | _ => none

/-- Result left in a nil []string slice by json.Unmarshal when the error is
discarded, as getSession discards it: a syntactically valid JSON array with
nothing but whitespace after it populates one string per element, the
zero-valued string standing at non-string elements (Go saves the type error
and keeps decoding); everything else, a syntax error anywhere, trailing
input or a non-array top-level value alike, leaves the slice untouched and
hence empty. Three times the input length is ample fuel: every third
recursion step consumes an input character. -/
def goUnmarshalStringSlice (s : List Char) : List String :=
  match skipWs s with
  | '[' :: rest =>
    match skipWs rest with
    | ']' :: _ => []
    | _ =>
      match parseElems (3 * rest.length + 3) rest with
      | some (elems, rest2) => if skipWs rest2 = [] then elems else []
      | none => []
  | _ => []

/-- Session state reconstructed from cookies (struct UserSession in
main.go). -/
structure UserSession where
  Username : String
  Groups : List String
  LoggedIn : Bool
  deriving DecidableEq, Repr

/-- Identity derivation from the two request cookies (getSession in main.go).
A missing cookie yields the zero-valued session; when both cookies are
present, the error of json.Unmarshal is ignored exactly as in the source, so
the session is marked logged-in whatever the usergroups value holds, the
groups being whatever the decoder left in the slice. -/
def getSession (usernameCookie usergroupsCookie : Option String) : UserSession :=
  match usernameCookie with
  | none => { Username := "", Groups := [], LoggedIn := false }
  | some username =>
    match usergroupsCookie with
    | none => { Username := "", Groups := [], LoggedIn := false }
    | some groupsCookie =>
      { Username := username,
        Groups := goUnmarshalStringSlice groupsCookie.data,
        LoggedIn := true }

/-- HTTP cookie attributes as passed to gin's SetCookie: name, value, max-age
in seconds, path, domain, the secure flag and the HTTP-only flag. -/
structure Cookie where
  name : String
  value : String
  maxAge : Int
  path : String
  domain : String
  secure : Bool
  httpOnly : Bool
  deriving DecidableEq, Repr

/-- Session establishment (setSession in main.go): the username cookie holds
the name verbatim, the usergroups cookie holds the JSON-encoded group list;
both expire after 3600 seconds, cover the whole site (path /), carry no
domain (so they return only to the issuing host) and are HTTP-only. -/
def setSession (username : String) (groups : List String) : Cookie × Cookie :=
  ({ name := "username", value := username, maxAge := 3600, path := "/",
     domain := "", secure := false, httpOnly := true },
   { name := "usergroups",
     value := String.mk (jsonEncodeStrings (groups.map String.data)),
     maxAge := 3600, path := "/", domain := "", secure := false, httpOnly := true })

/-- Session teardown (clearSession in main.go): both cookies overwritten with
empty values and immediate expiry. -/
def clearSession : Cookie × Cookie :=
  ({ name := "username", value := "", maxAge := -1, path := "/",
     domain := "", secure := false, httpOnly := true },
   { name := "usergroups", value := "", maxAge := -1, path := "/",
     domain := "", secure := false, httpOnly := true })

/-- Fixed allow-list hard-coded in hasAccess in main.go; the first and third
entries are Russian group names. -/
def allowedGroups : List String :=
  ["Администраторы домена", "sys.admins", "Администрация"]

/-- Access policy (hasAccess in main.go): true when some user group equals
some allow-listed group, by exact string comparison. -/
def hasAccess (groups : List String) : Bool :=
  groups.any (fun userGroup => allowedGroups.any (fun allowedGroup => userGroup == allowedGroup))

/-- Allow-list exactly as the specification words it, kept only to compare
the specification against the list in the source. -/
def specAllowList : List String :=
  ["Domain Admins", "sys.admins", "Administration"]

/-- Employee row (struct Employee in main.go); the created-at timestamp is
modelled as an opaque tick count. -/
structure Employee where
  ID : Int
  LastName : String
  FirstName : String
  MiddleName : String
  Position : String
  Phone : String
  Email : String
  Building : String
  Comments : String
  Status : String
  CreatedAt : Nat
  deriving DecidableEq, Repr

/-- Relational store as seen by the read operations: none stands for an
unreachable store or a failing query, some rows for the table contents. -/
def DB : Type := Option (List Employee)

/-- Failure category of a store operation: the query failed, or the queried
row does not exist (sql.ErrNoRows from QueryRow.Scan). -/
inductive QueryError where
  | storeUnavailable : QueryError
  | noRows : QueryError
  deriving DecidableEq, Repr

/-- Strict lexicographic comparison of character lists by code point,
modelling the relational collation used by ORDER BY. -/
def charListLt : List Char → List Char → Bool
  | [], [] => false
  | [], _ :: _ => true
  | _ :: _, [] => false
  | a :: as, b :: bs =>
    if a.toNat < b.toNat then true
    else if b.toNat < a.toNat then false
    else charListLt as bs

/-- Reflexive lexicographic comparison of character lists by code point. -/
def charListLe : List Char → List Char → Bool
  | [], _ => true
  | _ :: _, [] => false
  | a :: as, b :: bs =>
    if a.toNat < b.toNat then true
    else if b.toNat < a.toNat then false
    else charListLe as bs

/-- Row order of the ORDER BY last_name, first_name clause: last names
compared first, first names breaking ties. -/
def empLe (a b : Employee) : Bool :=
  if charListLt a.LastName.data b.LastName.data then true
  else if charListLt b.LastName.data a.LastName.data then false
  else charListLe a.FirstName.data b.FirstName.data

/-- Insertion into a list sorted by the given comparison. -/
def insertLe (le : Employee → Employee → Bool) (a : Employee) : List Employee → List Employee
  | [] => [a]
  | b :: bs => if le a b then a :: b :: bs else b :: insertLe le a bs

/-- Sorted permutation of the rows under empLe, modelling the ORDER BY
last_name, first_name clause of the two list queries. -/
def sortByName (rows : List Employee) : List Employee :=
  rows.foldr (insertLe empLe) []

/-- Lowercase image of a character list; ILIKE compares both sides through
the collation's lowercase map, modelled here by Char.toLower. -/
def lowerL (s : List Char) : List Char :=
  s.map Char.toLower

/-- Suffixes of a character list, longest first, the empty suffix last. -/
def tailsList : List Char → List (List Char)
  | [] => [[]]
  | c :: s => (c :: s) :: tailsList s

/-- SQL LIKE pattern match with PostgreSQL's default backslash escape: a
percent sign matches any (possibly empty) stretch of characters, an
underscore matches exactly one character, a backslash strips the following
pattern character of any special meaning, and any other pattern character
matches itself. A pattern ending in a dangling escape matches nothing
(PostgreSQL raises an error there; the patterns searchEmployees builds end
in the appended percent sign, which a preceding escape consumes, so a
dangling escape never reaches the store from this program). -/
def likeMatch : List Char → List Char → Bool
  | [], s => s.isEmpty
  | p :: ps, s =>
    if p = '%' then (tailsList s).any (fun s2 => likeMatch ps s2)
    else if p = '\\' then
      match ps with
      | [] => false
      | q :: ps2 =>
        match s with
        | [] => false
        | c :: s2 => (q = c) && likeMatch ps2 s2
    else
      match s with
      | [] => false
      | c :: s2 => (if p = '_' then true else p = c) && likeMatch ps s2

/-- SQL ILIKE: LIKE after lowercasing both the pattern and the subject. -/
def ilike (pat subject : List Char) : Bool :=
  likeMatch (lowerL pat) (lowerL subject)

/-- Match of one row against the WHERE clause of searchEmployees in main.go:
the pattern percent-query-percent is tried with ILIKE against last name,
first name, middle name, position, phone and email. -/
def rowMatches (q : List Char) (e : Employee) : Bool :=
  ilike ('%' :: (q ++ ['%'])) e.LastName.data ||
  ilike ('%' :: (q ++ ['%'])) e.FirstName.data ||
  ilike ('%' :: (q ++ ['%'])) e.MiddleName.data ||
  ilike ('%' :: (q ++ ['%'])) e.Position.data ||
  ilike ('%' :: (q ++ ['%'])) e.Phone.data ||
  ilike ('%' :: (q ++ ['%'])) e.Email.data

/-- List query of getEmployees in main.go: every row of the table, ordered by
(last name, first name); a failing store yields the store-unavailable
error. -/
def getEmployees (db : DB) : Except QueryError (List Employee) :=
  match db with
  | none => Except.error QueryError.storeUnavailable
  | some rows => Except.ok (sortByName rows)

/-- Search query of searchEmployees in main.go: the rows matching the WHERE
clause for the given term, ordered by (last name, first name); a failing
store yields the store-unavailable error. -/
def searchEmployees (query : String) (db : DB) : Except QueryError (List Employee) :=
  match db with
  | none => Except.error QueryError.storeUnavailable
  | some rows => Except.ok (sortByName (rows.filter (rowMatches query.data)))

/-- Single-row query of getEmployeeHandler in main.go: the first row with the
requested id, sql.ErrNoRows when there is none, the store error when the
store fails. -/
def queryRowById (db : DB) (id : Int) : Except QueryError Employee :=
  match db with
  | none => Except.error QueryError.storeUnavailable
  | some rows =>
    match rows.find? (fun e => e.ID == id) with
    | some e => Except.ok e
    | none => Except.error QueryError.noRows

/-- Data handed to the index.html template by the handlers of the
authenticated variant (the gin.H map): the employee list, the active count,
the user name, the total count and, for search renders, the query. -/
structure RenderData where
  employees : List Employee
  activeCount : Nat
  username : String
  totalCount : Nat
  searchQuery : Option String
  deriving DecidableEq, Repr

/-- Response body of a handler: a JSON error message, one employee as JSON,
the employee list as JSON, or a rendered HTML page. -/
inductive RespBody where
  | errJson : String → RespBody
  | employeeJson : Employee → RespBody
  | employeesJson : List Employee → RespBody
  | htmlPage : RenderData → RespBody
  deriving DecidableEq, Repr

/-- HTTP response of a handler: status code and body. -/
structure HttpResponse where
  status : Nat
  body : RespBody
  deriving DecidableEq, Repr

/-- Employee list of a rendered HTML page, when the response is one. -/
def resultEmployees (r : HttpResponse) : Option (List Employee) :=
  match r.body with
  | RespBody.htmlPage rd => some rd.employees
  | _ => none

/-- Active-employee counter loop shared by indexHandler and searchHandler in
main.go: counts the rows whose status field equals the Russian word for
working. -/
def countActive (employees : List Employee) : Nat :=
  employees.foldl (fun acc e => if e.Status == "работает" then acc + 1 else acc) 0

/-- Index page handler (indexHandler in main.go, authenticated variant): a
store failure surfaces as status 500, otherwise the page renders the full
list with the active count, the session user name and the total count. -/
def indexHandler (session : UserSession) (db : DB) : HttpResponse :=
  match getEmployees db with
  | Except.error _ => { status := 500, body := RespBody.errJson "store error" }
  | Except.ok employees =>
    { status := 200,
      body := RespBody.htmlPage
        { employees := employees, activeCount := countActive employees,
          username := session.Username, totalCount := employees.length,
          searchQuery := none } }

/-- Search page handler (searchHandler in main.go, authenticated variant): a
strictly empty query falls through to the index handler; otherwise the
matching rows render with the active count, the user name and the total
count. -/
def searchHandler (session : UserSession) (db : DB) (query : String) : HttpResponse :=
  if query = "" then indexHandler session db
  else
    match searchEmployees query db with
    | Except.error _ => { status := 500, body := RespBody.errJson "store error" }
    | Except.ok employees =>
      { status := 200,
        body := RespBody.htmlPage
          { employees := employees, activeCount := countActive employees,
            username := session.Username, totalCount := employees.length,
            searchQuery := some query } }

/-- JSON list endpoint (apiEmployeesHandler in main.go): a store failure
surfaces as status 500, otherwise the ordered list is returned as JSON. -/
def apiEmployeesHandler (db : DB) : HttpResponse :=
  match getEmployees db with
  | Except.error _ => { status := 500, body := RespBody.errJson "store error" }
  | Except.ok employees => { status := 200, body := RespBody.employeesJson employees }

/-- Accumulator loop of digitsToNat. -/
def digitsToNatAux : List Char → Nat → Option Nat
  | [], acc => some acc
  | c :: rest, acc =>
    if 48 ≤ c.toNat ∧ c.toNat ≤ 57 then digitsToNatAux rest (acc * 10 + (c.toNat - 48))
    else none

/-- Digits of a decimal number, rejecting empty input and non-digits. -/
def digitsToNat : List Char → Option Nat
  | [] => none
  | s => digitsToNatAux s 0

/-- Integer parse mirroring strconv.Atoi: optional sign followed by at least
one decimal digit (the int64 range check of the real Atoi is immaterial for
the claims and omitted). -/
def atoi (s : List Char) : Option Int :=
  match s with
  | '+' :: rest => (digitsToNat rest).map Int.ofNat
  | '-' :: rest => (digitsToNat rest).map (fun n => -(n : Int))
  | _ => (digitsToNat s).map Int.ofNat

/-- Single-employee endpoint (getEmployeeHandler in main.go): a malformed id
surfaces as status 400; any error of the single-row query, the missing row
and the failing store alike, surfaces as status 404; a found row is returned
as JSON with status 200. -/
def getEmployeeHandler (db : DB) (idStr : String) : HttpResponse :=
  match atoi idStr.data with
  | none => { status := 400, body := RespBody.errJson "Invalid ID" }
  | some id =>
    match queryRowById db id with
    | Except.error _ => { status := 404, body := RespBody.errJson "Employee not found" }
    | Except.ok emp => { status := 200, body := RespBody.employeeJson emp }

/-- Terms free of the SQL pattern metacharacters: no percent sign, no
underscore and no backslash escape, the terms on which the LIKE pattern the
program builds means literal substring search. -/
def noWildcard (q : List Char) : Bool :=
  q.all (fun c => !(c = '%' || c = '_' || c = '\\'))

/-- Prefix test on character lists. -/
def isPrefixB : List Char → List Char → Bool
  | [], _ => true
  | _ :: _, [] => false
  | a :: as, b :: bs => a = b && isPrefixB as bs

/-- Substring test on character lists: some suffix of the subject starts with
the sought list. -/
def containsSub : List Char → List Char → Bool
  | t, [] => isPrefixB t []
  | t, c :: s => isPrefixB t (c :: s) || containsSub t s

/-- Case-insensitive substring test between strings, following the words of
the specification of the search operation. -/
def ciSubstr (term field : String) : Bool :=
  containsSub (lowerL term.data) (lowerL field.data)

/-- Case-insensitive substring test of the term against the six searched
fields, following the words of the specification of the search operation. -/
def specSearchMatch (term : String) (e : Employee) : Bool :=
  ciSubstr term e.LastName || ciSubstr term e.FirstName ||
  ciSubstr term e.MiddleName || ciSubstr term e.Position ||
  ciSubstr term e.Phone || ciSubstr term e.Email

theorem char_toNat_inj {a b : Char} (h : a.toNat = b.toNat) : a = b := by
  have h1 := Char.ofNat_toNat a
  rw [h, Char.ofNat_toNat] at h1
  exact h1.symm

theorem ofNatAux_toNat (n : Nat) (h : Nat.isValidChar n) : (Char.ofNatAux n h).toNat = n := by
  have hn : n < 2 ^ 32 := by
    rcases h with h | h
    · omega
    · omega
  simp only [Char.ofNatAux, Char.toNat, UInt32.toNat]
  simp [BitVec.toNat_ofNat]

theorem char_valid_nat (c : Char) : Nat.isValidChar c.toNat := c.valid

theorem parseHexDigit_hexDigit {m : Nat} (h : m < 16) : parseHexDigit (hexDigit m) = some m := by
  have key : ∀ k : Fin 16, parseHexDigit (hexDigit k.val) = some k.val := by decide
  exact key ⟨m, h⟩

theorem psb_esc2 (fuel : Nat) (e ch : Char) (rest acc : List Char) (he : ¬ e = 'u')
    (hu : unescChar e = some ch) :
    parseStringBody (fuel + 1) ('\\' :: e :: rest) acc
      = parseStringBody fuel rest (ch :: acc) := by
  rw [parseStringBody.eq_def]
  simp [he, hu]

theorem psb_u (fuel : Nat) (h1 h2 h3 h4 : Char) (d1 d2 d3 d4 : Nat) (rest acc : List Char)
    (c : Char)
    (e1 : parseHexDigit h1 = some d1) (e2 : parseHexDigit h2 = some d2)
    (e3 : parseHexDigit h3 = some d3) (e4 : parseHexDigit h4 = some d4)
    (hn : ((d1 * 16 + d2) * 16 + d3) * 16 + d4 = c.toNat) :
    parseStringBody (fuel + 1) ('\\' :: 'u' :: h1 :: h2 :: h3 :: h4 :: rest) acc =
      parseStringBody fuel rest (c :: acc) := by
  rw [parseStringBody.eq_def]
  simp only [e1, e2, e3, e4, hn]
  have hv : Nat.isValidChar c.toNat := char_valid_nat c
  have hns : ¬ (55296 ≤ c.toNat ∧ c.toNat < 57344) := by
    rcases hv with h | h
    · omega
    · omega
  simp only [reduceCtorEq, reduceIte, dif_neg hns, dif_pos hv]
  have : Char.ofNatAux c.toNat hv = c := char_toNat_inj (ofNatAux_toNat _ hv)
  simp [this]

theorem psb_lit (fuel : Nat) (c : Char) (rest acc : List Char) (hq : ¬ c = '"')
    (hb : ¬ c = '\\') (hc : ¬ c.toNat < 32) :
    parseStringBody (fuel + 1) (c :: rest) acc = parseStringBody fuel rest (c :: acc) := by
  rw [parseStringBody.eq_def]
  simp [hq, hb, hc]

theorem parseStringBody_escChar (fuel : Nat) (c : Char) (rest acc : List Char) :
    parseStringBody (fuel + 1) (escChar c ++ rest) acc
      = parseStringBody fuel rest (c :: acc) := by
  by_cases h1 : c = '"'
  · subst h1
    simpa [escChar] using psb_esc2 fuel '"' '"' rest acc (by decide) (by decide)
  by_cases h2 : c = '\\'
  · subst h2
    simpa [escChar] using psb_esc2 fuel '\\' '\\' rest acc (by decide) (by decide)
  by_cases h3 : c = '\n'
  · subst h3
    simpa [escChar] using psb_esc2 fuel 'n' '\n' rest acc (by decide) (by decide)
  by_cases h4 : c = '\r'
  · subst h4
    simpa [escChar] using psb_esc2 fuel 'r' '\r' rest acc (by decide) (by decide)
  by_cases h5 : c = '\t'
  · subst h5
    simpa [escChar] using psb_esc2 fuel 't' '\t' rest acc (by decide) (by decide)
  by_cases h6 : c = '<'
  · subst h6
    simpa [escChar] using
      psb_u fuel '0' '0' '3' 'c' 0 0 3 12 rest acc '<' (by decide) (by decide) (by decide)
        (by decide) (by decide)
  by_cases h7 : c = '>'
  · subst h7
    simpa [escChar] using
      psb_u fuel '0' '0' '3' 'e' 0 0 3 14 rest acc '>' (by decide) (by decide) (by decide)
        (by decide) (by decide)
  by_cases h8 : c = '&'
  · subst h8
    simpa [escChar] using
      psb_u fuel '0' '0' '2' '6' 0 0 2 6 rest acc '&' (by decide) (by decide) (by decide)
        (by decide) (by decide)
  by_cases h9 : c.toNat < 32
  · have hd1 : c.toNat / 16 < 16 := by omega
    have hd2 : c.toNat % 16 < 16 := by omega
    have step := psb_u fuel '0' '0' (hexDigit (c.toNat / 16)) (hexDigit (c.toNat % 16))
      0 0 (c.toNat / 16) (c.toNat % 16) rest acc c (by decide) (by decide)
      (parseHexDigit_hexDigit hd1) (parseHexDigit_hexDigit hd2) (by omega)
    simp only [escChar, if_neg h1, if_neg h2, if_neg h3, if_neg h4, if_neg h5, if_neg h6,
      if_neg h7, if_neg h8, if_pos h9, List.cons_append, List.nil_append]
    exact step
  by_cases h10 : c.toNat = 8232
  · have step := psb_u fuel '2' '0' '2' '8' 2 0 2 8 rest acc c (by decide) (by decide)
      (by decide) (by decide) (by omega)
    simp only [escChar, if_neg h1, if_neg h2, if_neg h3, if_neg h4, if_neg h5, if_neg h6,
      if_neg h7, if_neg h8, if_neg h9, if_pos h10, List.cons_append, List.nil_append]
    exact step
  by_cases h11 : c.toNat = 8233
  · have step := psb_u fuel '2' '0' '2' '9' 2 0 2 9 rest acc c (by decide) (by decide)
      (by decide) (by decide) (by omega)
    simp only [escChar, if_neg h1, if_neg h2, if_neg h3, if_neg h4, if_neg h5, if_neg h6,
      if_neg h7, if_neg h8, if_neg h9, if_neg h10, if_pos h11, List.cons_append,
      List.nil_append]
    exact step
  · simp only [escChar, if_neg h1, if_neg h2, if_neg h3, if_neg h4, if_neg h5, if_neg h6,
      if_neg h7, if_neg h8, if_neg h9, if_neg h10, if_neg h11, List.cons_append,
      List.nil_append]
    exact psb_lit fuel c rest acc h1 h2 h9

theorem parseStringBody_escBody (s : List Char) : ∀ (rest acc : List Char) (F : Nat),
    s.length + 1 ≤ F →
    parseStringBody F (escBody s ++ '"' :: rest) acc = some (acc.reverse ++ s, rest) := by
  induction s with
  | nil =>
    intro rest acc F hF
    cases F with
    | zero => omega
    | succ f =>
      rw [escBody, List.nil_append, parseStringBody.eq_def]
      simp
  | cons c s ih =>
    intro rest acc F hF
    cases F with
    | zero => omega
    | succ f =>
      rw [escBody, List.append_assoc, parseStringBody_escChar f c _ acc]
      rw [ih rest (c :: acc) f (by simp only [List.length_cons] at hF; omega)]
      simp

theorem skipWs_not_ws (c : Char) (r : List Char)
    (h : ¬ (c = ' ' ∨ c = '\t' ∨ c = '\n' ∨ c = '\r')) :
    skipWs (c :: r) = c :: r := by
  rw [skipWs, if_neg h]

theorem encStringJson_length_pos (s : List Char) : 1 ≤ (encStringJson s).length := by
  rw [encStringJson]
  simp

theorem length_le_encItems (x : List Char) (l : List (List Char)) :
    (x :: l).length ≤ (encItems (x :: l)).length := by
  induction l generalizing x with
  | nil =>
    rw [encItems]
    simpa using encStringJson_length_pos x
  | cons y l ih =>
    rw [encItems]
    have h1 := encStringJson_length_pos x
    have h2 := ih y
    simp only [List.length_append, List.length_cons] at *
    omega

theorem escChar_length_pos (c : Char) : 1 ≤ (escChar c).length := by
  rw [escChar]
  by_cases h1 : c = '"'
  · rw [if_pos h1]; decide
  rw [if_neg h1]
  by_cases h2 : c = '\\'
  · rw [if_pos h2]; decide
  rw [if_neg h2]
  by_cases h3 : c = '\n'
  · rw [if_pos h3]; decide
  rw [if_neg h3]
  by_cases h4 : c = '\r'
  · rw [if_pos h4]; decide
  rw [if_neg h4]
  by_cases h5 : c = '\t'
  · rw [if_pos h5]; decide
  rw [if_neg h5]
  by_cases h6 : c = '<'
  · rw [if_pos h6]; decide
  rw [if_neg h6]
  by_cases h7 : c = '>'
  · rw [if_pos h7]; decide
  rw [if_neg h7]
  by_cases h8 : c = '&'
  · rw [if_pos h8]; decide
  rw [if_neg h8]
  by_cases h9 : c.toNat < 32
  · rw [if_pos h9]
    simp only [List.length_cons]
    omega
  rw [if_neg h9]
  by_cases h10 : c.toNat = 8232
  · rw [if_pos h10]; decide
  rw [if_neg h10]
  by_cases h11 : c.toNat = 8233
  · rw [if_pos h11]; decide
  rw [if_neg h11]
  simp only [List.length_cons]
  omega

theorem length_le_escBody (s : List Char) : s.length ≤ (escBody s).length := by
  induction s with
  | nil => simp [escBody]
  | cons c s ih =>
    rw [escBody]
    have := escChar_length_pos c
    simp only [List.length_append, List.length_cons]
    omega

theorem parseElem_enc (fuel : Nat) (x rest : List Char) :
    parseElem fuel ('"' :: (escBody x ++ '"' :: rest)) = some (String.mk x, rest) := by
  rw [parseElem]
  rw [parseStringBody_escBody x rest [] ((escBody x ++ '"' :: rest).length + 1) (by
    have := length_le_escBody x
    simp only [List.length_append, List.length_cons]
    omega)]
  simp

theorem parseElems_enc (l : List (List Char)) (x : List Char) (fuel : Nat) (rest : List Char)
    (h : l.length < fuel) :
    parseElems fuel (encItems (x :: l) ++ ']' :: rest)
      = some ((x :: l).map String.mk, rest) := by
  induction l generalizing x fuel rest with
  | nil =>
    cases fuel with
    | zero => omega
    | succ f =>
      rw [encItems, encStringJson, parseElems]
      rw [List.cons_append, List.append_assoc, List.cons_append, List.nil_append]
      rw [skipWs_not_ws '"' _ (by decide), parseElem_enc]
      simp [skipWs_not_ws ']' rest (by decide)]
  | cons y l ih =>
    cases fuel with
    | zero => omega
    | succ f =>
      rw [encItems, encStringJson, parseElems]
      rw [List.append_assoc, List.cons_append, List.cons_append, List.append_assoc,
        List.cons_append, List.nil_append]
      rw [skipWs_not_ws '"' _ (by decide), parseElem_enc]
      have hy : l.length < f := by
        simp only [List.length_cons] at h
        omega
      simp [skipWs_not_ws ',' (encItems (y :: l) ++ ']' :: rest) (by decide),
        ih y f rest hy]

theorem encItems_cons (x : List Char) (l : List (List Char)) :
    ∃ t, encItems (x :: l) = '"' :: t := by
  cases l with
  | nil =>
    refine ⟨escBody x ++ ['"'], ?_⟩
    rw [encItems, encStringJson]
  | cons y l =>
    refine ⟨(escBody x ++ ['"']) ++ ',' :: encItems (y :: l), ?_⟩
    rw [encItems, encStringJson]
    simp

theorem goUnmarshal_jsonEncode (l : List (List Char)) :
    goUnmarshalStringSlice (jsonEncodeStrings l) = l.map String.mk := by
  cases l with
  | nil => rfl
  | cons x l =>
    obtain ⟨t, ht⟩ := encItems_cons x l
    rw [jsonEncodeStrings, goUnmarshalStringSlice.eq_def]
    rw [skipWs_not_ws '[' _ (by decide)]
    have hfuel : l.length < 3 * (encItems (x :: l) ++ [']']).length + 3 := by
      have := length_le_encItems x l
      simp only [List.length_append, List.length_cons] at *
      omega
    have hparse := parseElems_enc l x (3 * (encItems (x :: l) ++ [']']).length + 3) [] hfuel
    rw [ht] at hparse ⊢
    simp only [List.cons_append] at hparse ⊢
    simp only [List.length_cons, List.length_append, List.length_nil] at hparse
    simp [skipWs_not_ws '"' (t ++ [']']) (by decide), hparse, skipWs]

/-- C4: establishing a session for a username and group list and then
deriving the identity from the two resulting cookie values yields an
authenticated session carrying the same username and the same set of groups
(the list is in fact recovered exactly, so set equality holds a fortiori). -/
theorem setSession_getSession_roundTrip (u : String) (G : List String) :
    (getSession (some (setSession u G).1.value) (some (setSession u G).2.value)).LoggedIn
      = true ∧
    (getSession (some (setSession u G).1.value) (some (setSession u G).2.value)).Username
      = u ∧
    ∀ g : String,
      g ∈ (getSession (some (setSession u G).1.value) (some (setSession u G).2.value)).Groups
        ↔ g ∈ G := by
  have hdec : goUnmarshalStringSlice ((String.mk (jsonEncodeStrings (G.map String.data))).data)
      = (G.map String.data).map String.mk := goUnmarshal_jsonEncode (G.map String.data)
  have hmk : ∀ s : String, String.mk s.data = s := fun s => rfl
  simp [getSession, setSession, hdec, List.map_map, Function.comp, hmk]

/-- C9: setSession writes the username cookie with the name verbatim and the
usergroups cookie with the JSON-encoded group list; both carry a max-age of
3600 seconds, the site-wide path, an empty domain (so the browser returns
them only to the issuing host) and the HTTP-only flag. -/
theorem setSession_cookie_attributes (u : String) (G : List String) :
    (setSession u G).1.name = "username" ∧
    (setSession u G).1.value = u ∧
    (setSession u G).1.maxAge = 3600 ∧
    (setSession u G).1.path = "/" ∧
    (setSession u G).1.domain = "" ∧
    (setSession u G).1.httpOnly = true ∧
    (setSession u G).2.name = "usergroups" ∧
    (setSession u G).2.value = String.mk (jsonEncodeStrings (G.map String.data)) ∧
    (setSession u G).2.maxAge = 3600 ∧
    (setSession u G).2.path = "/" ∧
    (setSession u G).2.domain = "" ∧
    (setSession u G).2.httpOnly = true :=
  ⟨rfl, rfl, rfl, rfl, rfl, rfl, rfl, rfl, rfl, rfl, rfl, rfl⟩

/-- C1 (amended): a missing username cookie or a missing usergroups cookie
yields the unauthenticated zero identity and no error is ever raised; but
when both cookies are present the identity is authenticated with the
username set whatever the usergroups value holds, the discarded
json.Unmarshal error leaving the groups exactly as the decoder wrote them:
the decoded list when the value is a valid JSON array (whitespace included),
with the zero-valued string standing at non-string elements after an ignored
type error, and the untouched empty list when the value is not a
syntactically valid JSON array at all. -/
theorem getSession_missing_or_malformed (u gs : String) :
    getSession none none = { Username := "", Groups := [], LoggedIn := false } ∧
    getSession none (some gs) = { Username := "", Groups := [], LoggedIn := false } ∧
    getSession (some u) none = { Username := "", Groups := [], LoggedIn := false } ∧
    getSession (some u) (some gs)
      = { Username := u, Groups := goUnmarshalStringSlice gs.data, LoggedIn := true } ∧
    goUnmarshalStringSlice ("notjson".data) = [] ∧
    goUnmarshalStringSlice ("[ \"a\" ]".data) = ["a"] ∧
    goUnmarshalStringSlice ("[\"a\",1]".data) = ["a", ""] :=
  ⟨rfl, rfl, rfl, rfl, by decide, by decide, by decide⟩

/-- C1 counterexample: the cookie value badcookie is not valid JSON, so the
decoder leaves the group slice empty, yet getSession marks the request
authenticated, contradicting the claim that a malformed usergroups cookie
yields authenticated equal to false. -/
theorem getSession_malformed_still_loggedIn :
    goUnmarshalStringSlice ("badcookie".data) = [] ∧
    (getSession (some "alice") (some "badcookie")).LoggedIn = true :=
  ⟨by decide, by decide⟩

/-- C2 (amended): hasAccess is true exactly when the group list meets the
allow-list hard-coded in the source, whose entries are the two Russian group
names and sys.admins. -/
theorem hasAccess_iff_meets_allowedGroups (G : List String) :
    hasAccess G = true ↔ ∃ g, g ∈ G ∧ g ∈ allowedGroups := by
  simp [hasAccess, List.any_eq_true]

/-- C2 counterexample: the spec names the allow-list entry Domain Admins, yet
hasAccess rejects a user carrying exactly that group, because the list in the
source holds the Russian name instead. -/
theorem hasAccess_spec_list_mismatch :
    hasAccess ["Domain Admins"] = false ∧ "Domain Admins" ∈ specAllowList :=
  ⟨by decide, by decide⟩

theorem charListLt_irrefl (s : List Char) : charListLt s s = false := by
  induction s with
  | nil => rfl
  | cons c s ih =>
    rw [charListLt]
    simp [ih]

theorem charListLt_trans {a : List Char} : ∀ {b c : List Char},
    charListLt a b = true → charListLt b c = true → charListLt a c = true := by
  induction a with
  | nil =>
    intro b c h1 h2
    cases b with
    | nil => simp [charListLt] at h1
    | cons y bs =>
      cases c with
      | nil => simp [charListLt] at h2
      | cons z cs => simp [charListLt]
  | cons x as ih =>
    intro b c h1 h2
    cases b with
    | nil => simp [charListLt] at h1
    | cons y bs =>
      cases c with
      | nil => simp [charListLt] at h2
      | cons z cs =>
        rw [charListLt] at h1 h2 ⊢
        by_cases hxy : x.toNat < y.toNat
        · by_cases hyz : y.toNat < z.toNat
          · simp [show x.toNat < z.toNat by omega]
          · by_cases hzy : z.toNat < y.toNat
            · simp [hyz, hzy] at h2
            · simp [show x.toNat < z.toNat by omega]
        · by_cases hyx : y.toNat < x.toNat
          · simp [hxy, hyx] at h1
          · by_cases hyz : y.toNat < z.toNat
            · simp [show x.toNat < z.toNat by omega]
            · by_cases hzy : z.toNat < y.toNat
              · simp [hyz, hzy] at h2
              · simp [hxy, hyx] at h1
                simp [hyz, hzy] at h2
                simp [show ¬ x.toNat < z.toNat by omega, show ¬ z.toNat < x.toNat by omega]
                exact ih h1 h2

theorem charList_eq_of_not_lt {a : List Char} : ∀ {b : List Char},
    charListLt a b = false → charListLt b a = false → a = b := by
  induction a with
  | nil =>
    intro b h1 _
    cases b with
    | nil => rfl
    | cons y bs => simp [charListLt] at h1
  | cons x as ih =>
    intro b h1 h2
    cases b with
    | nil => simp [charListLt] at h2
    | cons y bs =>
      rw [charListLt] at h1 h2
      by_cases hxy : x.toNat < y.toNat
      · simp [hxy] at h1
      · by_cases hyx : y.toNat < x.toNat
        · simp [hxy, hyx] at h2
        · simp [hxy, hyx] at h1 h2
          have hx : x = y := char_toNat_inj (by omega)
          rw [hx, ih h1 h2]

theorem charListLe_total (a : List Char) : ∀ b : List Char,
    charListLe a b = true ∨ charListLe b a = true := by
  induction a with
  | nil => intro b; left; rfl
  | cons x as ih =>
    intro b
    cases b with
    | nil => right; rfl
    | cons y bs =>
      rw [charListLe, charListLe]
      by_cases hxy : x.toNat < y.toNat
      · left; simp [hxy]
      · by_cases hyx : y.toNat < x.toNat
        · right; simp [hyx]
        · simpa [hxy, hyx] using ih bs

theorem charListLe_trans {a : List Char} : ∀ {b c : List Char},
    charListLe a b = true → charListLe b c = true → charListLe a c = true := by
  induction a with
  | nil => intro b c _ _; rfl
  | cons x as ih =>
    intro b c h1 h2
    cases b with
    | nil => simp [charListLe] at h1
    | cons y bs =>
      cases c with
      | nil => simp [charListLe] at h2
      | cons z cs =>
        rw [charListLe] at h1 h2 ⊢
        by_cases hxy : x.toNat < y.toNat
        · by_cases hyz : y.toNat < z.toNat
          · simp [show x.toNat < z.toNat by omega]
          · by_cases hzy : z.toNat < y.toNat
            · simp [hyz, hzy] at h2
            · simp [show x.toNat < z.toNat by omega]
        · by_cases hyx : y.toNat < x.toNat
          · simp [hxy, hyx] at h1
          · by_cases hyz : y.toNat < z.toNat
            · simp [show x.toNat < z.toNat by omega]
            · by_cases hzy : z.toNat < y.toNat
              · simp [hyz, hzy] at h2
              · simp [hxy, hyx] at h1
                simp [hyz, hzy] at h2
                simp [show ¬ x.toNat < z.toNat by omega, show ¬ z.toNat < x.toNat by omega]
                exact ih h1 h2

theorem empLe_trans {a b c : Employee} (h1 : empLe a b = true) (h2 : empLe b c = true) :
    empLe a c = true := by
  rw [empLe] at h1 h2 ⊢
  by_cases hab : charListLt a.LastName.data b.LastName.data = true
  · by_cases hbc : charListLt b.LastName.data c.LastName.data = true
    · simp [charListLt_trans hab hbc]
    · by_cases hcb : charListLt c.LastName.data b.LastName.data = true
      · simp [hbc, hcb] at h2
      · have : b.LastName.data = c.LastName.data :=
          charList_eq_of_not_lt (by simpa using hbc) (by simpa using hcb)
        rw [← this]
        simp [hab]
  · by_cases hba : charListLt b.LastName.data a.LastName.data = true
    · simp [hab, hba] at h1
    · have heq : a.LastName.data = b.LastName.data :=
        charList_eq_of_not_lt (by simpa using hab) (by simpa using hba)
      simp [hab, hba] at h1
      by_cases hbc : charListLt b.LastName.data c.LastName.data = true
      · rw [heq]
        simp [hbc]
      · by_cases hcb : charListLt c.LastName.data b.LastName.data = true
        · simp [hbc, hcb] at h2
        · have heq2 : b.LastName.data = c.LastName.data :=
            charList_eq_of_not_lt (by simpa using hbc) (by simpa using hcb)
          simp [hbc, hcb] at h2
          rw [heq, heq2]
          simp [charListLt_irrefl]
          exact charListLe_trans h1 h2

theorem empLe_total (a b : Employee) : empLe a b = true ∨ empLe b a = true := by
  rw [empLe, empLe]
  by_cases hab : charListLt a.LastName.data b.LastName.data = true
  · left; simp [hab]
  · by_cases hba : charListLt b.LastName.data a.LastName.data = true
    · right; simp [hba]
    · simp [hab, hba]
      exact charListLe_total a.FirstName.data b.FirstName.data

theorem insertLe_perm (le : Employee → Employee → Bool) (a : Employee) :
    ∀ l : List Employee, (insertLe le a l).Perm (a :: l) := by
  intro l
  induction l with
  | nil => rfl
  | cons b bs ih =>
    rw [insertLe]
    by_cases h : le a b = true
    · simp [h]
    · simp [h]
      exact ((ih.cons b).trans (List.Perm.swap a b bs)).symm.symm

theorem sortByName_perm (rows : List Employee) : (sortByName rows).Perm rows := by
  induction rows with
  | nil => rfl
  | cons a as ih =>
    rw [sortByName, List.foldr]
    exact (insertLe_perm empLe a _).trans (ih.cons a)

theorem mem_insertLe {le : Employee → Employee → Bool} {a x : Employee} {l : List Employee} :
    x ∈ insertLe le a l ↔ x = a ∨ x ∈ l := by
  rw [(insertLe_perm le a l).mem_iff]
  simp

theorem pairwise_insertLe {a : Employee} {l : List Employee}
    (h : l.Pairwise (fun x y => empLe x y = true)) :
    (insertLe empLe a l).Pairwise (fun x y => empLe x y = true) := by
  induction l with
  | nil => simp [insertLe]
  | cons b bs ih =>
    rw [List.pairwise_cons] at h
    rw [insertLe]
    by_cases hab : empLe a b = true
    · rw [if_pos hab, List.pairwise_cons]
      refine ⟨?_, List.pairwise_cons.mpr h⟩
      intro x hx
      rcases List.mem_cons.mp hx with hx | hx
      · rw [hx]; exact hab
      · exact empLe_trans hab (h.1 x hx)
    · have hba : empLe b a = true := (empLe_total a b).resolve_left hab
      rw [if_neg hab, List.pairwise_cons]
      refine ⟨?_, ih h.2⟩
      intro x hx
      rcases mem_insertLe.mp hx with hx | hx
      · rw [hx]; exact hba
      · exact h.1 x hx

theorem sortByName_sorted (rows : List Employee) :
    (sortByName rows).Pairwise (fun x y => empLe x y = true) := by
  induction rows with
  | nil => simp [sortByName]
  | cons a as ih =>
    rw [sortByName, List.foldr]
    exact pairwise_insertLe ih

theorem mem_sortByName {x : Employee} {rows : List Employee} :
    x ∈ sortByName rows ↔ x ∈ rows :=
  (sortByName_perm rows).mem_iff

/-- C8: getEmployees returns every stored record exactly once, ordered by
(last name, first name) ascending; an empty store yields the empty sequence
and not an error; on the two example records with last names B and A the
record with last name A comes first. -/
theorem getEmployees_ordered_complete (rows : List Employee) :
    getEmployees (some rows) = Except.ok (sortByName rows) ∧
    (sortByName rows).Perm rows ∧
    (sortByName rows).Pairwise (fun x y => empLe x y = true) ∧
    getEmployees (some []) = Except.ok [] ∧
    sortByName
      [{ ID := 1, LastName := "B", FirstName := "X", MiddleName := "", Position := "",
         Phone := "", Email := "", Building := "", Comments := "", Status := "",
         CreatedAt := 0 },
       { ID := 2, LastName := "A", FirstName := "Y", MiddleName := "", Position := "",
         Phone := "", Email := "", Building := "", Comments := "", Status := "",
         CreatedAt := 0 }] =
      [{ ID := 2, LastName := "A", FirstName := "Y", MiddleName := "", Position := "",
         Phone := "", Email := "", Building := "", Comments := "", Status := "",
         CreatedAt := 0 },
       { ID := 1, LastName := "B", FirstName := "X", MiddleName := "", Position := "",
         Phone := "", Email := "", Building := "", Comments := "", Status := "",
         CreatedAt := 0 }] :=
  ⟨rfl, sortByName_perm rows, sortByName_sorted rows, rfl, by decide⟩

theorem ofNat_toNat_valid (n : Nat) (h : Nat.isValidChar n) : (Char.ofNat n).toNat = n := by
  rw [Char.ofNat, dif_pos h]
  exact ofNatAux_toNat n h

theorem tailsList_any_empty (s : List Char) :
    (tailsList s).any (fun s2 => likeMatch [] s2) = true := by
  induction s with
  | nil => rfl
  | cons c s ih =>
    rw [tailsList]
    simp only [List.any_cons, ih, Bool.or_true]

theorem likeMatch_pct_all (s : List Char) : likeMatch ['%'] s = true := by
  rw [likeMatch.eq_def]
  simp only [reduceIte]
  exact tailsList_any_empty s

theorem likeMatch_append_pct {p : List Char} (hp : noWildcard p = true) :
    ∀ s : List Char, likeMatch (p ++ ['%']) s = isPrefixB p s := by
  induction p with
  | nil =>
    intro s
    rw [List.nil_append, likeMatch_pct_all, isPrefixB]
  | cons c p ih =>
    intro s
    rw [noWildcard, List.all_cons] at hp
    simp only [Bool.and_eq_true, Bool.not_eq_eq_eq_not, Bool.not_true, Bool.or_eq_false_iff,
      decide_eq_false_iff_not] at hp
    obtain ⟨⟨⟨hcp, hcu⟩, hcb⟩, hp2⟩ := hp
    have ihs := ih (by rw [noWildcard]; exact hp2)
    rw [List.cons_append, likeMatch.eq_def]
    cases s with
    | nil =>
      rw [isPrefixB]
      simp [hcp, hcb]
    | cons d s2 =>
      rw [isPrefixB]
      simp only [if_neg hcp, if_neg hcb, if_neg hcu, ihs s2]

theorem containsSub_eq_any (t : List Char) : ∀ s : List Char,
    containsSub t s = (tailsList s).any (fun s2 => isPrefixB t s2) := by
  intro s
  induction s with
  | nil =>
    rw [containsSub, tailsList]
    simp
  | cons c s ih =>
    rw [containsSub, tailsList, List.any_cons, ih]

theorem likeMatch_pct_wrap {q : List Char} (hq : noWildcard q = true) (s : List Char) :
    likeMatch ('%' :: (q ++ ['%'])) s = containsSub q s := by
  rw [likeMatch.eq_def]
  simp only [reduceIte, containsSub_eq_any]
  simp only [likeMatch_append_pct hq]

theorem toLower_ne_pct {c : Char} (h : ¬ c = '%') : ¬ Char.toLower c = '%' := by
  intro hl
  rw [Char.toLower] at hl
  by_cases hr : c.toNat ≥ 65 ∧ c.toNat ≤ 90
  · rw [if_pos hr] at hl
    have := ofNat_toNat_valid (c.toNat + 32) (by left; omega)
    rw [hl] at this
    have h37 : ('%' : Char).toNat = 37 := by decide
    rw [h37] at this
    omega
  · rw [if_neg hr] at hl
    exact h hl

theorem toLower_ne_us {c : Char} (h : ¬ c = '_') : ¬ Char.toLower c = '_' := by
  intro hl
  rw [Char.toLower] at hl
  by_cases hr : c.toNat ≥ 65 ∧ c.toNat ≤ 90
  · rw [if_pos hr] at hl
    have := ofNat_toNat_valid (c.toNat + 32) (by left; omega)
    rw [hl] at this
    have h95 : ('_' : Char).toNat = 95 := by decide
    rw [h95] at this
    omega
  · rw [if_neg hr] at hl
    exact h hl

theorem toLower_ne_bs {c : Char} (h : ¬ c = '\\') : ¬ Char.toLower c = '\\' := by
  intro hl
  rw [Char.toLower] at hl
  by_cases hr : c.toNat ≥ 65 ∧ c.toNat ≤ 90
  · rw [if_pos hr] at hl
    have := ofNat_toNat_valid (c.toNat + 32) (by left; omega)
    rw [hl] at this
    have h92 : ('\\' : Char).toNat = 92 := by decide
    rw [h92] at this
    omega
  · rw [if_neg hr] at hl
    exact h hl

theorem noWildcard_lowerL {q : List Char} (hq : noWildcard q = true) :
    noWildcard (lowerL q) = true := by
  rw [noWildcard, lowerL, List.all_map]
  rw [noWildcard, List.all_eq_true] at hq
  rw [List.all_eq_true]
  intro c hc
  have h1 := hq c hc
  simp only [Function.comp_apply]
  simp only [Bool.not_eq_eq_eq_not, Bool.not_true, Bool.or_eq_false_iff,
    decide_eq_false_iff_not] at h1 ⊢
  exact ⟨⟨toLower_ne_pct h1.1.1, toLower_ne_us h1.1.2⟩, toLower_ne_bs h1.2⟩

theorem lowerL_pattern (q : List Char) :
    lowerL ('%' :: (q ++ ['%'])) = '%' :: (lowerL q ++ ['%']) := by
  rw [lowerL, lowerL]
  simp [List.map_append]

theorem ilike_pct_wrap {q : List Char} (hq : noWildcard q = true) (f : List Char) :
    ilike ('%' :: (q ++ ['%'])) f = containsSub (lowerL q) (lowerL f) := by
  rw [ilike, lowerL_pattern, likeMatch_pct_wrap (noWildcard_lowerL hq)]

theorem rowMatches_eq_specSearchMatch (term : String) (e : Employee)
    (hq : noWildcard term.data = true) :
    rowMatches term.data e = specSearchMatch term e := by
  rw [rowMatches, specSearchMatch]
  rw [ilike_pct_wrap hq, ilike_pct_wrap hq, ilike_pct_wrap hq, ilike_pct_wrap hq,
    ilike_pct_wrap hq, ilike_pct_wrap hq]
  simp only [ciSubstr]

/-- C3 (amended): for a search term free of the SQL wildcard characters
percent and underscore, a record appears in the search result exactly when it
is stored and the term is a case-insensitive substring of its last name,
first name, middle name, position, phone or email, and the result is ordered
by (last name, first name); terms containing a wildcard character are instead
interpreted through the LIKE pattern the source builds by string
concatenation. -/
theorem searchEmployees_substring_spec (rows l : List Employee) (term : String)
    (e : Employee) (hterm : noWildcard term.data = true)
    (hres : searchEmployees term (some rows) = Except.ok l) :
    (e ∈ l ↔ e ∈ rows ∧ specSearchMatch term e = true) ∧
    l.Pairwise (fun x y => empLe x y = true) := by
  have hl : l = sortByName (rows.filter (rowMatches term.data)) := by
    rw [searchEmployees] at hres
    exact (Except.ok.inj hres).symm
  subst hl
  refine ⟨?_, sortByName_sorted _⟩
  rw [mem_sortByName, List.mem_filter, rowMatches_eq_specSearchMatch term e hterm]

/-- Witness for the amended C3 theorem: the term ano, carrying no wildcard,
finds the stored record with last name Ivanov. -/
theorem searchEmployees_substring_spec_witness :
    ({ ID := 1, LastName := "Ivanov", FirstName := "Ivan", MiddleName := "Ivanovich",
       Position := "Developer", Phone := "+7-999", Email := "iv@company.com",
       Building := "HQ", Comments := "", Status := "работает",
       CreatedAt := 0 } : Employee) ∈
      [({ ID := 1, LastName := "Ivanov", FirstName := "Ivan", MiddleName := "Ivanovich",
          Position := "Developer", Phone := "+7-999", Email := "iv@company.com",
          Building := "HQ", Comments := "", Status := "работает",
          CreatedAt := 0 } : Employee)] ↔
    ({ ID := 1, LastName := "Ivanov", FirstName := "Ivan", MiddleName := "Ivanovich",
       Position := "Developer", Phone := "+7-999", Email := "iv@company.com",
       Building := "HQ", Comments := "", Status := "работает",
       CreatedAt := 0 } : Employee) ∈
      [({ ID := 1, LastName := "Ivanov", FirstName := "Ivan", MiddleName := "Ivanovich",
          Position := "Developer", Phone := "+7-999", Email := "iv@company.com",
          Building := "HQ", Comments := "", Status := "работает",
          CreatedAt := 0 } : Employee)] ∧
      specSearchMatch "ano"
        { ID := 1, LastName := "Ivanov", FirstName := "Ivan", MiddleName := "Ivanovich",
          Position := "Developer", Phone := "+7-999", Email := "iv@company.com",
          Building := "HQ", Comments := "", Status := "работает",
          CreatedAt := 0 } = true :=
  (searchEmployees_substring_spec
    [{ ID := 1, LastName := "Ivanov", FirstName := "Ivan", MiddleName := "Ivanovich",
       Position := "Developer", Phone := "+7-999", Email := "iv@company.com",
       Building := "HQ", Comments := "", Status := "работает", CreatedAt := 0 }]
    [{ ID := 1, LastName := "Ivanov", FirstName := "Ivan", MiddleName := "Ivanovich",
       Position := "Developer", Phone := "+7-999", Email := "iv@company.com",
       Building := "HQ", Comments := "", Status := "работает", CreatedAt := 0 }]
    "ano"
    { ID := 1, LastName := "Ivanov", FirstName := "Ivan", MiddleName := "Ivanovich",
      Position := "Developer", Phone := "+7-999", Email := "iv@company.com",
      Building := "HQ", Comments := "", Status := "работает", CreatedAt := 0 }
    (by decide) (by rfl)).1

/-- C3 counterexample: the one-character term underscore is returned as a
match for a record none of whose searched fields contains an underscore,
because the unescaped term acts as a LIKE wildcard; so membership in the
search result is not equivalent to case-insensitive substring containment
for every term. -/
theorem searchEmployees_wildcard_mismatch :
    searchEmployees "_" (some
      [{ ID := 7, LastName := "Petrov", FirstName := "Petr", MiddleName := "P",
         Position := "QA", Phone := "+7-111", Email := "pe@company.com",
         Building := "HQ", Comments := "", Status := "работает", CreatedAt := 0 }]) =
      Except.ok
        [{ ID := 7, LastName := "Petrov", FirstName := "Petr", MiddleName := "P",
           Position := "QA", Phone := "+7-111", Email := "pe@company.com",
           Building := "HQ", Comments := "", Status := "работает", CreatedAt := 0 }] ∧
    specSearchMatch "_"
      { ID := 7, LastName := "Petrov", FirstName := "Petr", MiddleName := "P",
        Position := "QA", Phone := "+7-111", Email := "pe@company.com",
        Building := "HQ", Comments := "", Status := "работает", CreatedAt := 0 } = false :=
  ⟨by rfl, by decide⟩

/-- C5 (amended): only the strictly empty search term short-circuits to the
index page, whose rendered list is exactly the ordered full listing that
getEmployees returns; whitespace-only terms do not short-circuit but are
searched literally. -/
theorem searchHandler_empty_term (sess : UserSession) (db : DB) (rows : List Employee) :
    searchHandler sess db "" = indexHandler sess db ∧
    resultEmployees (indexHandler sess (some rows)) = some (sortByName rows) ∧
    getEmployees (some rows) = Except.ok (sortByName rows) := by
  refine ⟨?_, rfl, rfl⟩
  rw [searchHandler, if_pos rfl]

/-- C5 counterexample: on a store whose only record contains no space in any
searched field, the whitespace-only term renders an empty result list while
the index page shows the record, so a whitespace-only term is not equivalent
to the full listing. -/
theorem searchHandler_whitespace_not_listAll :
    resultEmployees (searchHandler { Username := "", Groups := [], LoggedIn := true }
      (some
        [{ ID := 5, LastName := "Sidorov", FirstName := "Alex", MiddleName := "S",
           Position := "Analyst", Phone := "+7-222", Email := "si@company.com",
           Building := "HQ", Comments := "", Status := "работает", CreatedAt := 0 }]) " ")
      = some [] ∧
    resultEmployees (indexHandler { Username := "", Groups := [], LoggedIn := true }
      (some
        [{ ID := 5, LastName := "Sidorov", FirstName := "Alex", MiddleName := "S",
           Position := "Analyst", Phone := "+7-222", Email := "si@company.com",
           Building := "HQ", Comments := "", Status := "работает", CreatedAt := 0 }]))
      = some
        [{ ID := 5, LastName := "Sidorov", FirstName := "Alex", MiddleName := "S",
           Position := "Analyst", Phone := "+7-222", Email := "si@company.com",
           Building := "HQ", Comments := "", Status := "работает", CreatedAt := 0 }] :=
  ⟨by rfl, by rfl⟩

/-- C6 (amended): a failing store surfaces as status 500 on the index page,
the search page and the JSON list endpoint, but the by-id endpoint folds
every error of its single-row query into status 404, so there a failing
store and a missing record alike surface as 404 and the two categories are
not distinguished. -/
theorem error_category_status_codes (sess : UserSession) (rows : List Employee)
    (idStr q : String) (id : Int) (hq : ¬ q = "")
    (h1 : atoi idStr.data = some id) (h2 : rows.all (fun e => e.ID != id) = true) :
    (indexHandler sess none).status = 500 ∧
    (searchHandler sess none q).status = 500 ∧
    (apiEmployeesHandler none).status = 500 ∧
    (getEmployeeHandler none idStr).status = 404 ∧
    (getEmployeeHandler (some rows) idStr).status = 404 := by
  have hfind : rows.find? (fun e => e.ID == id) = none := by
    rw [List.find?_eq_none]
    intro x hx
    rw [List.all_eq_true] at h2
    simpa using h2 x hx
  refine ⟨rfl, ?_, rfl, ?_, ?_⟩
  · rw [searchHandler, if_neg hq]
    rfl
  · rw [getEmployeeHandler, h1]
    rfl
  · rw [getEmployeeHandler, h1]
    simp [queryRowById, hfind]

/-- Witness for the amended C6 theorem at an empty store, search term x and
id 1. -/
theorem error_category_status_codes_witness :
    (indexHandler { Username := "", Groups := [], LoggedIn := true } none).status = 500 ∧
    (searchHandler { Username := "", Groups := [], LoggedIn := true } none "x").status = 500 ∧
    (apiEmployeesHandler none).status = 500 ∧
    (getEmployeeHandler none "1").status = 404 ∧
    (getEmployeeHandler (some []) "1").status = 404 :=
  error_category_status_codes { Username := "", Groups := [], LoggedIn := true } [] "1" "x" 1
    (by decide) (by decide) (by decide)

/-- C6 counterexample: with the store unreachable the by-id endpoint answers
404, not a 500-class status, contradicting the claim that store failure is
surfaced as a 500-class response on every employee-read endpoint. -/
theorem getById_store_failure_is_404 :
    (getEmployeeHandler none "1").status = 404 ∧
    ¬ 500 ≤ (getEmployeeHandler none "1").status :=
  ⟨by rfl, by decide⟩

/-- C7: for an id no stored record carries, the by-id endpoint answers the
404 not-found response and never a 200 response carrying an employee, in
particular never a zero-valued record. -/
theorem getEmployeeHandler_notFound (rows : List Employee) (idStr : String) (id : Int)
    (h1 : atoi idStr.data = some id) (h2 : ∀ e ∈ rows, ¬ e.ID = id) :
    getEmployeeHandler (some rows) idStr
      = { status := 404, body := RespBody.errJson "Employee not found" } ∧
    ∀ e : Employee, ¬ getEmployeeHandler (some rows) idStr
      = { status := 200, body := RespBody.employeeJson e } := by
  have hfind : rows.find? (fun e => e.ID == id) = none := by
    rw [List.find?_eq_none]
    intro x hx
    simpa using h2 x hx
  have hmain : getEmployeeHandler (some rows) idStr
      = { status := 404, body := RespBody.errJson "Employee not found" } := by
    rw [getEmployeeHandler, h1]
    simp [queryRowById, hfind]
  refine ⟨hmain, ?_⟩
  intro e he
  rw [hmain] at he
  simp at he

/-- Witness for the C7 theorem: a one-record store and the absent id 9. -/
theorem getEmployeeHandler_notFound_witness :
    getEmployeeHandler (some
      [{ ID := 3, LastName := "Kozlova", FirstName := "Olga", MiddleName := "V",
         Position := "Designer", Phone := "+7-333", Email := "ko@company.com",
         Building := "HQ", Comments := "", Status := "работает", CreatedAt := 0 }]) "9"
      = { status := 404, body := RespBody.errJson "Employee not found" } :=
  (getEmployeeHandler_notFound
    [{ ID := 3, LastName := "Kozlova", FirstName := "Olga", MiddleName := "V",
       Position := "Designer", Phone := "+7-333", Email := "ko@company.com",
       Building := "HQ", Comments := "", Status := "работает", CreatedAt := 0 }]
    "9" 9 (by decide) (by decide)).1

theorem countActive_eq_filter_length (l : List Employee) :
    countActive l = (l.filter (fun e => e.Status == "работает")).length := by
  rw [countActive]
  suffices h : ∀ n : Nat,
      l.foldl (fun acc e => if e.Status == "работает" then acc + 1 else acc) n
        = n + (l.filter (fun e => e.Status == "работает")).length by
    simpa using h 0
  induction l with
  | nil => intro n; simp
  | cons e l ih =>
    intro n
    rw [List.foldl_cons, List.filter_cons]
    by_cases hs : (e.Status == "работает") = true
    · rw [if_pos hs, if_pos hs, ih]
      simp
      omega
    · rw [if_neg hs, if_neg hs, ih]

/-- C10: whenever the index page renders, its reported active count is the
number of rendered records whose status is the active one and its reported
total count is the length of the rendered list; whenever the search page
renders, its reported active count likewise counts the active rendered
records. -/
theorem render_counts (sess : UserSession) (db : DB) (q : String) (rd : RenderData) :
    (indexHandler sess db = { status := 200, body := RespBody.htmlPage rd } →
      rd.activeCount = (rd.employees.filter (fun e => e.Status == "работает")).length ∧
      rd.totalCount = rd.employees.length) ∧
    (searchHandler sess db q = { status := 200, body := RespBody.htmlPage rd } →
      rd.activeCount = (rd.employees.filter (fun e => e.Status == "работает")).length) := by
  have hidx : indexHandler sess db = { status := 200, body := RespBody.htmlPage rd } →
      rd.activeCount = (rd.employees.filter (fun e => e.Status == "работает")).length ∧
      rd.totalCount = rd.employees.length := by
    intro h
    cases hdb : getEmployees db with
    | error err =>
      rw [indexHandler, hdb] at h
      exact absurd ((HttpResponse.mk.injEq _ _ _ _).mp h).1 (by decide)
    | ok emps =>
      rw [indexHandler, hdb] at h
      have hrd : RenderData.mk emps (countActive emps) sess.Username emps.length none = rd :=
        RespBody.htmlPage.inj ((HttpResponse.mk.injEq _ _ _ _).mp h).2
      rw [← hrd]
      exact ⟨countActive_eq_filter_length emps, rfl⟩
  refine ⟨hidx, ?_⟩
  intro h
  by_cases hq : q = ""
  · subst hq
    rw [searchHandler, if_pos rfl] at h
    exact (hidx h).1
  · rw [searchHandler, if_neg hq] at h
    cases hdb : searchEmployees q db with
    | error err =>
      rw [hdb] at h
      exact absurd ((HttpResponse.mk.injEq _ _ _ _).mp h).1 (by decide)
    | ok emps =>
      rw [hdb] at h
      have hrd : RenderData.mk emps (countActive emps) sess.Username emps.length
          (some q) = rd :=
        RespBody.htmlPage.inj ((HttpResponse.mk.injEq _ _ _ _).mp h).2
      rw [← hrd]
      exact countActive_eq_filter_length emps

/-- Witness for the C10 theorem: a one-record store with an active record,
rendered through the index page. -/
theorem render_counts_witness :
    ({ employees :=
        [{ ID := 4, LastName := "Orlova", FirstName := "Maria", MiddleName := "S",
           Position := "Manager", Phone := "+7-444", Email := "or@company.com",
           Building := "HQ", Comments := "", Status := "работает", CreatedAt := 0 }],
       activeCount := 1, username := "u", totalCount := 1,
       searchQuery := none } : RenderData).activeCount =
      ((([{ ID := 4, LastName := "Orlova", FirstName := "Maria", MiddleName := "S",
            Position := "Manager", Phone := "+7-444", Email := "or@company.com",
            Building := "HQ", Comments := "", Status := "работает",
            CreatedAt := 0 }] : List Employee).filter
          (fun e => e.Status == "работает")).length) ∧
    ({ employees :=
        [{ ID := 4, LastName := "Orlova", FirstName := "Maria", MiddleName := "S",
           Position := "Manager", Phone := "+7-444", Email := "or@company.com",
           Building := "HQ", Comments := "", Status := "работает", CreatedAt := 0 }],
       activeCount := 1, username := "u", totalCount := 1,
       searchQuery := none } : RenderData).totalCount = 1 :=
  (render_counts { Username := "u", Groups := [], LoggedIn := true }
    (some
      [{ ID := 4, LastName := "Orlova", FirstName := "Maria", MiddleName := "S",
         Position := "Manager", Phone := "+7-444", Email := "or@company.com",
         Building := "HQ", Comments := "", Status := "работает", CreatedAt := 0 }]) ""
    { employees :=
        [{ ID := 4, LastName := "Orlova", FirstName := "Maria", MiddleName := "S",
           Position := "Manager", Phone := "+7-444", Email := "or@company.com",
           Building := "HQ", Comments := "", Status := "работает", CreatedAt := 0 }],
      activeCount := 1, username := "u", totalCount := 1, searchQuery := none }).1
    (by rfl)
